import Mathlib

/-!
Verification development for the GreenForge agent orchestration core.

The definitions below are a shallow embedding of the Go sources:
  internal/agent (conversation memory, agent runtime loop),
  internal/model (router, secret firewall, anthropic provider refresh).
Machine integers are modelled as `Int`/`Nat`; Go maps used only for lookup
are modelled as association lists; network and clock effects are passed in
explicitly as oracles.
-/

set_option maxRecDepth 20000

namespace GreenForge

/-! ## Data model (internal/model/router.go, internal/agent memory file)

`model.ToolCall.Input` is an open `map[string]interface{}`; the embedding
represents it as an association list of opaque string values, which is
enough for every claim (the agent core never inspects the map).
`Message.Timestamp` (real time) carries no information used by any claim
and is omitted. -/

structure ToolCall where
  id : String
  name : String
  input : List (String × String)
deriving DecidableEq, Repr

/-- agent.Message: role, content, optional tool invocations (assistant),
optional correlation id and tool name (tool messages). -/
structure Msg where
  role : String
  content : String
  toolCalls : List ToolCall
  toolCallID : String
  toolName : String
deriving DecidableEq, Repr

/-! ## Conversation Memory (Memory.Add / Memory.Get)

`Memory` keys sessions in a map; all claims are per-session, so the
embedding works on one session's message list.  `maxSize` is the value
set by `NewMemory`. -/

def maxSize : Nat := 200

/-- Memory.Add: append, then trim to first 10 + last 150 when the
conversation exceeds `maxSize` (`history[:10] ++ history[len(history)-150:]`). -/
def memoryAdd (hist : List Msg) (msg : Msg) : List Msg :=
  if (hist ++ [msg]).length > maxSize then
    (hist ++ [msg]).take 10 ++ (hist ++ [msg]).drop ((hist ++ [msg]).length - 150)
  else
    hist ++ [msg]

/-- Memory.Get returns a (defensive copy of) the stored list; as a pure
value this is the list itself. -/
def memoryGet (hist : List Msg) : List Msg := hist

/-- Unfolding of the trimming branch of `memoryAdd`. -/
theorem memoryAdd_gt (hist : List Msg) (msg : Msg)
    (hgt : (hist ++ [msg]).length > maxSize) :
    memoryAdd hist msg =
      (hist ++ [msg]).take 10 ++ (hist ++ [msg]).drop ((hist ++ [msg]).length - 150) := by
  unfold memoryAdd
  rw [if_pos hgt]

/-- Unfolding of the non-trimming branch of `memoryAdd`. -/
theorem memoryAdd_le (hist : List Msg) (msg : Msg)
    (hle : ¬ (hist ++ [msg]).length > maxSize) :
    memoryAdd hist msg = hist ++ [msg] := by
  unfold memoryAdd
  rw [if_neg hle]

/-- The trim removes one contiguous middle segment: the pre-trim list is
the retained head, the discarded middle, and the retained tail in order. -/
theorem trim_contiguous (h : List Msg) (hge : 10 ≤ h.length - 150) :
    h.take 10 ++ ((h.drop 10).take (h.length - 150 - 10)) ++ h.drop (h.length - 150) = h := by
  have h1 : (h.drop 10).take (h.length - 150 - 10) =
      (h.take (h.length - 150)).drop 10 :=
    (List.drop_take (h.length - 150) 10 h).symm
  rw [h1]
  have h2 : h.take 10 = (h.take (h.length - 150)).take 10 := by
    rw [List.take_take, Nat.min_eq_left hge]
  rw [h2, List.take_append_drop, List.take_append_drop]

/-- Elements of the trimmed list come from the pre-trim list. -/
theorem memoryAdd_mem (hist : List Msg) (msg : Msg) (m : Msg)
    (hm : m ∈ memoryAdd hist msg) : m ∈ hist ++ [msg] := by
  unfold memoryAdd at hm
  by_cases hgt : (hist ++ [msg]).length > maxSize
  · rw [if_pos hgt] at hm
    rcases List.mem_append.mp hm with h' | h'
    · exact List.mem_of_mem_take h'
    · exact List.mem_of_mem_drop h'
  · rwa [if_neg hgt] at hm

/-! ## Secret Firewall (internal/model/firewall.go)

`Firewall.ScrubText` runs each compiled pattern of `defaultPatterns` in
order through `regexp.ReplaceAllStringFunc`.  Go's `regexp` uses
leftmost-first (Perl-style backtracking-order) match selection, which the
matcher below reproduces.  Every quantifier in the pattern battery sits
directly on a character class, and every alternation is between literal
branches, so the embedded pattern syntax provides exactly those shapes.
All concrete texts in the claims are ASCII; case-insensitive matching is
embedded as ASCII case folding. -/

/-- A character class: inclusive ranges, possibly negated. -/
structure CC where
  neg : Bool
  ranges : List (Char × Char)
deriving DecidableEq, Repr

def CC.mem (c : CC) (ch : Char) : Bool :=
  let inR := c.ranges.any fun r => decide (r.1 ≤ ch) && decide (ch ≤ r.2)
  if c.neg then !inR else inR

/-- One element of a pattern: a literal, an alternation of literal
branches (tried in source order; an optional group of literals is an
alternation whose last branch is the empty literal), or a quantified
character class.  `ci` marks case-insensitive (`(?i)`) literals. -/
inductive Item where
  | lit (ci : Bool) (s : List Char)
  | alts (ci : Bool) (ss : List (List Char))
  | one (c : CC)
  | opt (c : CC)
  | star (c : CC)
  | plus (c : CC)
  | atLeast (n : Nat) (c : CC)
  | repEq (n : Nat) (c : CC)
deriving Repr

def lowerChar (ch : Char) : Char :=
  if 'A' ≤ ch ∧ ch ≤ 'Z' then Char.ofNat (ch.toNat + 32) else ch

/-- Strip a literal (case-insensitively when `ci`) off the front of `s`. -/
def stripLit (ci : Bool) : List Char → List Char → Option (List Char)
  | [], s => some s
  | _ :: _, [] => none
  | a :: l, b :: s =>
      if (if ci then lowerChar a = lowerChar b else a = b) then stripLit ci l s
      else none

/-- Length of the maximal leading run of characters in class `c`. -/
def countRun (c : CC) : List Char → Nat
  | [] => 0
  | ch :: s => if c.mem ch then countRun c s + 1 else 0

/-- Greedy backtracking over a repetition count: try `lo + extra`,
`lo + extra - 1`, …, `lo`, first success wins. -/
def tryDown (k : Nat → Option (List Char)) (lo : Nat) : Nat → Option (List Char)
  | 0 => k lo
  | e + 1 => (k (lo + e + 1)).orElse fun _ => tryDown k lo e

/-- Backtracking matcher for one pattern at the head of `s`, in Perl
first-match order (alternation branches in order, quantifiers greedy).
`k` is the continuation receiving the unconsumed suffix; the result is
the suffix left by the first overall success. -/
def mSeq : List Item → List Char → (List Char → Option (List Char)) → Option (List Char)
  | [], s, k => k s
  | .lit ci l :: rest, s, k =>
      match stripLit ci l s with
      | some s' => mSeq rest s' k
      | none => none
  | .alts ci ss :: rest, s, k =>
      ss.foldr
        (fun l acc =>
          (match stripLit ci l s with
           | some s' => mSeq rest s' k
           | none => none).orElse fun _ => acc)
        none
  | .one c :: rest, s, k =>
      match s with
      | [] => none
      | ch :: s' => if c.mem ch then mSeq rest s' k else none
  | .opt c :: rest, s, k =>
      (match s with
       | ch :: s' => if c.mem ch then mSeq rest s' k else none
       | [] => none).orElse fun _ => mSeq rest s k
  | .star c :: rest, s, k =>
      tryDown (fun i => mSeq rest (s.drop i) k) 0 (countRun c s)
  | .plus c :: rest, s, k =>
      match countRun c s with
      | 0 => none
      | m + 1 => tryDown (fun i => mSeq rest (s.drop i) k) 1 m
  | .atLeast n c :: rest, s, k =>
      if n ≤ countRun c s then
        tryDown (fun i => mSeq rest (s.drop i) k) n (countRun c s - n)
      else none
  | .repEq n c :: rest, s, k =>
      if n ≤ countRun c s then mSeq rest (s.drop n) k else none

/-- `regexp.ReplaceAllStringFunc`: scan left to right, replace each
leftmost-first non-overlapping match by `f` applied to the matched text.
Fuel is the remaining text length (every step consumes at least one
character; the firewall patterns cannot match the empty string). -/
def replaceLoop (p : List Item) (f : List Char → List Char) : Nat → List Char → List Char
  | 0, s => s
  | _ + 1, [] =>
      (match mSeq p [] some with
       | some _ => f []
       | none => [])
  | fuel + 1, ch :: s =>
      match mSeq p (ch :: s) some with
      | some rest =>
          let len := (ch :: s).length - rest.length
          if len = 0 then ch :: replaceLoop p f fuel s
          else f ((ch :: s).take len) ++ replaceLoop p f fuel rest
      | none => ch :: replaceLoop p f fuel s

def replaceAllP (p : List Item) (f : List Char → List Char) (s : List Char) : List Char :=
  replaceLoop p f (s.length + 1) s

/-- `strings.IndexAny(m, ":=")`: index of the first `:` or `=`. -/
def sepIdx : List Char → Option Nat
  | [] => none
  | ch :: s => if ch = ':' ∨ ch = '=' then some 0 else (sepIdx s).map (· + 1)

/-- The replacement closure inside `Firewall.ScrubText`: keep the text up
to and including the first `:`/`=` and redact the value; private-key
headers and keyless matches are redacted whole. -/
def redactMatch (m : List Char) : List Char :=
  match sepIdx m with
  | some i => m.take (i + 1) ++ " [REDACTED]".toList
  | none =>
      if "-----BEGIN".toList.isPrefixOf m then "[REDACTED PRIVATE KEY]".toList
      else "[REDACTED]".toList

/-! Character classes appearing in `defaultPatterns`.  RE2's `\s` is
`[\t\n\f\r ]`.  Classes under `(?i)` are written case-closed (all of them
already are, except `[a-z]` in the JDBC pattern, embedded as `[A-Za-z]`). -/

def wspCC : CC := ⟨false, [('\t', '\n'), (Char.ofNat 12, '\r'), (' ', ' ')]⟩
def sepCC : CC := ⟨false, [(':', ':'), ('=', '=')]⟩
def quoteCC : CC := ⟨false, [('\'', '\''), ('"', '"')]⟩
def udashCC : CC := ⟨false, [('_', '_'), ('-', '-')]⟩
def wordCC : CC := ⟨false, [('A', 'Z'), ('a', 'z'), ('0', '9'), ('_', '_'), ('-', '-')]⟩
def wordDotCC : CC :=
  ⟨false, [('A', 'Z'), ('a', 'z'), ('0', '9'), ('_', '_'), ('-', '-'), ('.', '.')]⟩
def notWsQuoteCC : CC :=
  ⟨true, [('\t', '\n'), (Char.ofNat 12, '\r'), (' ', ' '), ('\'', '\''), ('"', '"')]⟩
def digUpCC : CC := ⟨false, [('0', '9'), ('A', 'Z')]⟩
def awsValCC : CC :=
  ⟨false, [('A', 'Z'), ('a', 'z'), ('0', '9'), ('/', '/'), ('+', '+'), ('=', '=')]⟩
def notWsSemiCC : CC := ⟨true, [('\t', '\n'), (Char.ofNat 12, '\r'), (' ', ' '), (';', ';')]⟩
def alphaCC : CC := ⟨false, [('A', 'Z'), ('a', 'z')]⟩
def notWsCC : CC := ⟨true, [('\t', '\n'), (Char.ofNat 12, '\r'), (' ', ' ')]⟩
def notWsAmpSemiCC : CC :=
  ⟨true, [('\t', '\n'), (Char.ofNat 12, '\r'), (' ', ' '), ('&', '&'), (';', ';')]⟩
def psCC : CC := ⟨false, [('p', 'p'), ('s', 's')]⟩
def wordUCC : CC := ⟨false, [('A', 'Z'), ('a', 'z'), ('0', '9'), ('_', '_')]⟩
def alnumCC : CC := ⟨false, [('A', 'Z'), ('a', 'z'), ('0', '9')]⟩

/-! The thirteen `defaultPatterns`, in source order.  In pattern 1 the
alternation `(api[_-]?key|apikey)` is embedded as `api[_-]?key`: the
second branch equals the first with the optional class empty, so under
first-match semantics with full continuation backtracking the two are
interchangeable.  Likewise the optional group `(?:RSA |EC |OPENSSH )?` in
the private-key pattern is an alternation whose last branch is empty. -/

def patApiKey : List Item :=
  [.lit true "api".toList, .opt udashCC, .lit true "key".toList,
   .star wspCC, .one sepCC, .star wspCC, .opt quoteCC,
   .atLeast 20 wordCC, .opt quoteCC]

def patGenericKV : List Item :=
  [.alts true ["secret".toList, "token".toList, "password".toList,
               "passwd".toList, "pwd".toList],
   .star wspCC, .one sepCC, .star wspCC, .opt quoteCC,
   .atLeast 8 notWsQuoteCC, .opt quoteCC]

def patBearer : List Item :=
  [.lit true "bearer".toList, .plus wspCC, .atLeast 20 wordDotCC]

def patAkia : List Item :=
  [.lit false "AKIA".toList, .repEq 16 digUpCC]

def patAwsSecret : List Item :=
  [.lit true "aws".toList, .opt udashCC, .lit true "secret".toList, .opt udashCC,
   .lit true "access".toList, .opt udashCC, .lit true "key".toList,
   .star wspCC, .one sepCC, .star wspCC, .opt quoteCC,
   .repEq 40 awsValCC, .opt quoteCC]

def patAzureConn : List Item :=
  [.lit true "DefaultEndpointsProtocol=https;AccountName=".toList, .plus notWsSemiCC]

def patAzureKV : List Item :=
  [.lit true "azure".toList, .opt udashCC,
   .alts true ["storage".toList, "devops".toList, "ad".toList], .opt udashCC,
   .alts true ["key".toList, "token".toList, "secret".toList, "password".toList],
   .star wspCC, .one sepCC, .star wspCC, .opt quoteCC,
   .atLeast 8 notWsQuoteCC, .opt quoteCC]

def patJdbc : List Item :=
  [.lit true "jdbc:".toList, .plus alphaCC, .lit true "://".toList,
   .star notWsCC, .lit true "password=".toList, .plus notWsAmpSemiCC]

def patPrivKey : List Item :=
  [.lit false "-----BEGIN ".toList,
   .alts false ["RSA ".toList, "EC ".toList, "OPENSSH ".toList, "".toList],
   .lit false "PRIVATE KEY-----".toList]

def patGithub : List Item :=
  [.lit false "gh".toList, .one psCC, .lit false "_".toList, .atLeast 36 wordUCC]

def patGitlab : List Item :=
  [.lit false "glpat-".toList, .atLeast 20 wordCC]

def patSkAnt : List Item :=
  [.lit false "sk-ant-".toList, .atLeast 20 wordCC]

def patSk : List Item :=
  [.lit false "sk-".toList, .atLeast 20 alnumCC]

def defaultPatterns : List (List Item) :=
  [patApiKey, patGenericKV, patBearer, patAkia, patAwsSecret,
   patAzureConn, patAzureKV, patJdbc, patPrivKey,
   patGithub, patGitlab, patSkAnt, patSk]

/-- Firewall.ScrubText: run every pattern, in order, through
replace-all with the redaction closure. -/
def scrubText (t : List Char) : List Char :=
  defaultPatterns.foldl (fun acc p => replaceAllP p redactMatch acc) t

/-- String-level wrapper for `scrubText`. -/
def scrubTextS (s : String) : String :=
  String.mk (scrubText s.toList)

/-! ## Model request scrubbing (Firewall.ScrubRequest)

`model.Message` (role, content, tool calls, correlation id) and
`model.Request`.  `Request.Temperature` is a `float64` that the core only
copies, never computes with; it is carried as a rational.  `ToolDef.Schema`
is an opaque `interface{}` carried as an uninterpreted string. -/

structure MMsg where
  role : String
  content : String
  toolCalls : List ToolCall
  toolCallID : String
deriving DecidableEq, Repr

structure ToolDef where
  name : String
  description : String
  schema : String
deriving DecidableEq, Repr

structure Request where
  messages : List MMsg
  tools : List ToolDef
  maxTokens : Nat
  temperature : Rat
  model : String
  workingDir : String
deriving DecidableEq

/-- Firewall.ScrubRequest: build a fresh Request copying Tools, MaxTokens,
Temperature and Model, scrubbing each message's content; `WorkingDir` is
not copied, so it holds the zero value `""`.  (The Go function returns a
new value; the caller's Request is untouched — in this pure embedding that
is the purity of the function.) -/
def scrubRequest (req : Request) : Request :=
  { messages := req.messages.map fun m =>
      { role := m.role
        content := scrubTextS m.content
        toolCalls := m.toolCalls
        toolCallID := m.toolCallID }
    tools := req.tools
    maxTokens := req.maxTokens
    temperature := req.temperature
    model := req.model
    workingDir := "" }

/-! ## Model Router (internal/model/router.go)

The provider registry is a Go map consulted only for membership and
`Available()`; it is embedded as an association list name ↦ available.
`resolveByPolicy` calls `path/filepath.Match` and discards its error
(`matched, _ := filepath.Match(...)`; on a malformed pattern Go reports
`ErrBadPattern` with `matched = false`), so the glob matcher below returns
`false` for malformed patterns.  Per the stdlib contract, `*` matches any
run of non-separator characters, `?` one non-separator character, and
`[...]`/`[^...]` classes (which may match the separator) one character;
the whole name must match. -/

/-- `getEsc` of filepath.Match: read one (possibly `\`-escaped) class
character; `-`, `]` and end-of-pattern are malformed here, as is a class
that ends without `]`. -/
def globGetEsc : List Char → Option (Char × List Char)
  | [] => none
  | '-' :: _ => none
  | ']' :: _ => none
  | '\\' :: rest =>
      match rest with
      | [] => none
      | c :: rest' => if rest' = [] then none else some (c, rest')
  | c :: rest => if rest = [] then none else some (c, rest)

/-- Parse the ranges of a character class, after `[` and the optional
`^`; at least one range is required before the closing `]`.  The first
argument is fuel (each step consumes at least one pattern character, so
the pattern length suffices). -/
def globClassRanges : Nat → List Char → Nat → Option (List (Char × Char) × List Char)
  | 0, _, _ => none
  | _ + 1, [], _ => none
  | _ + 1, ']' :: rest, _ + 1 => some ([], rest)
  | fuel + 1, chunk, n =>
      match globGetEsc chunk with
      | none => none
      | some (lo, chunk') =>
          match chunk' with
          | '-' :: chunk'' =>
              (match globGetEsc chunk'' with
               | none => none
               | some (hi, chunk''') =>
                   (globClassRanges fuel chunk''' (n + 1)).map
                     fun (pr : List (Char × Char) × List Char) =>
                       ((lo, hi) :: pr.1, pr.2))
          | _ =>
              (globClassRanges fuel chunk' (n + 1)).map
                fun (pr : List (Char × Char) × List Char) =>
                  ((lo, lo) :: pr.1, pr.2)

/-- filepath.Match with the error folded to `false`, exactly as consumed
by `Router.resolveByPolicy`.  The first argument is fuel: every recursive
call strictly decreases `p.length + s.length`, so `p.length + s.length + 1`
always suffices (see `globMatch`). -/
def globMatchF : Nat → List Char → List Char → Bool
  | 0, _, _ => false
  | fuel + 1, p, s =>
      match p, s with
      | [], s => s.isEmpty
      | '*' :: p', s =>
          globMatchF fuel p' s ||
            (match s with
             | [] => false
             | c :: s' => c ≠ '/' && globMatchF fuel ('*' :: p') s')
      | '?' :: p', s =>
          (match s with
           | [] => false
           | c :: s' => c ≠ '/' && globMatchF fuel p' s')
      | '[' :: p', s =>
          (match s with
           | [] => false
           | c :: s' =>
               let body : Option (Bool × List (Char × Char) × List Char) :=
                 match p' with
                 | '^' :: p'' => (globClassRanges p''.length p'' 0).map fun pr => (true, pr.1, pr.2)
                 | _ => (globClassRanges p'.length p' 0).map fun pr => (false, pr.1, pr.2)
               match body with
               | none => false
               | some (neg, ranges, rest) =>
                   let inR := ranges.any fun r => decide (r.1 ≤ c) && decide (c ≤ r.2)
                   (if neg then !inR else inR) && globMatchF fuel rest s')
      | '\\' :: p', s =>
          (match p', s with
           | pc :: p'', c :: s' => pc = c && globMatchF fuel p'' s'
           | _, _ => false)
      | pc :: p', s =>
          (match s with
           | [] => false
           | c :: s' => pc = c && globMatchF fuel p' s')

def globMatch (p s : List Char) : Bool :=
  globMatchF (p.length + s.length + 1) p s

structure ModelPolicy where
  projectPattern : String
  allowedProviders : List String
deriving DecidableEq, Repr

abbrev Registry := List (String × Bool)

inductive RouterErr
  | unknownProvider (name : String)
  | noProvider
deriving DecidableEq, Repr

/-- `strings.SplitN(s, "/", 2)[0]`: the part before the first slash. -/
def beforeSlash (s : String) : String := s.takeWhile (· ≠ '/')

/-- The inner loop of resolveByPolicy: first allowed provider that is
registered and reports Available. -/
def firstAvail (reg : Registry) : List String → Option String
  | [] => none
  | a :: rest => if reg.lookup a = some true then some a else firstAvail reg rest

/-- Router.resolveByPolicy: scan policies in configured order; within a
rule whose pattern matches the project path, return the first allowed
provider that is registered and available; a matching rule with no such
provider falls through to later rules. -/
def resolveByPolicy (reg : Registry) (policies : List ModelPolicy)
    (projectPath : String) : Option String :=
  match policies with
  | [] => none
  | pol :: rest =>
      if globMatch pol.projectPattern.toList projectPath.toList then
        match firstAvail reg pol.allowedProviders with
        | some name => some name
        | none => resolveByPolicy reg rest projectPath
      else resolveByPolicy reg rest projectPath

/-- The tail of Router.selectProvider after policy resolution: the
configured default model's provider when that provider is registered
(availability is not checked), else anthropic when registered and
available, else ollama when registered, else a no-provider error. -/
def defaultOrFallback (reg : Registry) (defaultModel : String) : Except RouterErr String :=
  if defaultModel ≠ "" ∧ (reg.lookup (beforeSlash defaultModel)).isSome then
    .ok (beforeSlash defaultModel)
  else if reg.lookup "anthropic" = some true then .ok "anthropic"
  else if (reg.lookup "ollama").isSome then .ok "ollama"
  else .error .noProvider

/-- Router.selectProvider.  `project` is the optional project path carried
by the context (`ctxKeyProject`); `modelOverride` is `req.Model`. -/
def selectProvider (reg : Registry) (policies : List ModelPolicy)
    (defaultModel : String) (project : Option String) (modelOverride : String) :
    Except RouterErr String :=
  if modelOverride ≠ "" then
    let name := beforeSlash modelOverride
    if (reg.lookup name).isSome then .ok name else .error (.unknownProvider name)
  else
    match (match project with
           | some pp => resolveByPolicy reg policies pp
           | none => none) with
    | some name => .ok name
    | none => defaultOrFallback reg defaultModel

/-- Router.Complete up to the provider call: resolve the provider, scrub
the request, and hand the sanitized request to the provider.  The value
returned is the (provider name, request) pair the provider receives. -/
def routerDispatch (reg : Registry) (policies : List ModelPolicy)
    (defaultModel : String) (project : Option String) (req : Request) :
    Except RouterErr (String × Request) :=
  match selectProvider reg policies defaultModel project req.model with
  | .error e => .error e
  | .ok name => .ok (name, scrubRequest req)

/-! ## Agent Runtime (internal/agent/runtime.go)

`Runtime.ProcessMessage` is embedded as a pure function of three oracles:
`complete i ctx` is the result of the i-th `router.Complete` call,
`exec i j tc` the result of `toolExec.Execute` for call `j` of iteration
`i`, and `cancel i` whether `ctx.Done()` is observed at the top of
iteration `i`.  Callback invocations are recorded as an event list (the
embedding models a caller with all callbacks configured; in Go a nil
callback is simply skipped).  `ToolResult.Duration` (wall-clock time) is
carried as an uninterpreted `Nat`. -/

structure ToolResult where
  output : String
  error : String
  duration : Nat
  metadata : List (String × String)
deriving DecidableEq, Repr

structure ToolInfo where
  name : String
  description : String
  category : String
deriving DecidableEq, Repr

structure Usage where
  inputTokens : Nat
  outputTokens : Nat
deriving DecidableEq, Repr

structure Response where
  content : String
  toolCalls : List ToolCall
  model : String
  usage : Usage
  finishReason : String
deriving DecidableEq, Repr

/-- Observer surface: one constructor per callback. -/
inductive Event where
  | thinking (text : String)
  | response (text : String)
  | toolCallEv (name : String) (input : List (String × String))
  | toolResultEv (name : String) (output : String) (errText : String)
  | errorEv (msg : String)
  | done
deriving DecidableEq, Repr

/-- The three distinct error shapes `ProcessMessage` can return:
`ctx.Err()` from the cancellation check, `"model completion error: %w"`,
and `"agent loop exceeded max iterations (%d)"`. -/
inductive RunErr
  | cancelled
  | completion (providerMsg : String)
  | iterationsExceeded (max : Nat)
deriving DecidableEq, Repr

def maxIterations : Nat := 20

/-- Runtime.buildSystemPrompt: static instructions plus the tool catalog
(the embedding models a Runtime with a tool executor configured, so the
catalog section is always present). -/
def buildSystemPrompt (tools : List ToolInfo) : String :=
  "You are GreenForge, a secure AI developer agent specialized for JVM teams.\n"
    ++ "You help developers with Spring Boot, Kafka, Gradle/Maven projects.\n"
    ++ "\nAvailable tools:\n"
    ++ tools.foldl (fun acc t => acc ++ "- " ++ t.name ++ ": " ++ t.description ++ "\n") ""

/-- Runtime.buildContext: a system message followed by the session history
converted to model messages (`ToolName` is not part of model.Message). -/
def buildContext (tools : List ToolInfo) (hist : List Msg) : List MMsg :=
  { role := "system", content := buildSystemPrompt tools,
    toolCalls := [], toolCallID := "" } ::
    hist.map fun m =>
      { role := m.role, content := m.content,
        toolCalls := m.toolCalls, toolCallID := m.toolCallID }

/-- Runtime.getToolDefs. -/
def getToolDefs (tools : List ToolInfo) : List ToolDef :=
  tools.map fun t => { name := t.name, description := t.description, schema := "" }

/-- Result of one ProcessMessage call: the returned error (if any), the
session's memory, the emitted events, and the number of completions. -/
structure LoopOut where
  err : Option RunErr
  memory : List Msg
  events : List Event
  completions : Nat
deriving DecidableEq, Repr

/-- The per-invocation body of the tool loop: on `err != nil` the result
is replaced by `ToolResult{Error: err.Error()}`; the appended tool message
carries `"Error: <message>"` on failure, the output otherwise, correlated
by the invocation id; the prompt context is rebuilt after each append. -/
def runTools (exec : Nat → Nat → ToolCall → Except String ToolResult)
    (tools : List ToolInfo) (i : Nat) :
    List ToolCall → Nat → List Msg → List Event → List MMsg →
      List Msg × List Event × List MMsg
  | [], _, mem, ev, ctx => (mem, ev, ctx)
  | tc :: rest, j, mem, ev, _ctx =>
      let ev := ev ++ [.toolCallEv tc.name tc.input]
      let result := match exec i j tc with
        | .ok r => r
        | .error m => { output := "", error := m, duration := 0, metadata := [] }
      let ev := ev ++ [.toolResultEv tc.name result.output result.error]
      let content := if result.error ≠ "" then "Error: " ++ result.error else result.output
      let mem := memoryAdd mem
        { role := "tool", content := content, toolCalls := [],
          toolCallID := tc.id, toolName := tc.name }
      runTools exec tools i rest (j + 1) mem ev (buildContext tools mem)

/-- The bounded agent loop (`for i := 0; i < maxIterations; i++`),
written with the remaining iteration count as fuel; `i = maxIterations -
fuel` is the Go loop index and `comps` counts `router.Complete` calls. -/
def agentLoop (complete : Nat → List MMsg → Except String Response)
    (exec : Nat → Nat → ToolCall → Except String ToolResult)
    (cancel : Nat → Bool) (tools : List ToolInfo) :
    Nat → Nat → List Msg → List MMsg → List Event → Nat → LoopOut
  | 0, _, mem, _, ev, comps =>
      ⟨some (.iterationsExceeded maxIterations), mem, ev, comps⟩
  | fuel + 1, i, mem, ctx, ev, comps =>
      if cancel i then ⟨some .cancelled, mem, ev, comps⟩
      else
        let ev := ev ++ [.thinking "Thinking..."]
        match complete i ctx with
        | .error e => ⟨some (.completion e), mem, ev ++ [.errorEv e], comps + 1⟩
        | .ok resp =>
            if resp.toolCalls.isEmpty then
              let mem := memoryAdd mem
                { role := "assistant", content := resp.content,
                  toolCalls := [], toolCallID := "", toolName := "" }
              ⟨none, mem, ev ++ [.response resp.content, .done], comps + 1⟩
            else
              let mem := memoryAdd mem
                { role := "assistant", content := resp.content,
                  toolCalls := resp.toolCalls, toolCallID := "", toolName := "" }
              let r := runTools exec tools i resp.toolCalls 0 mem ev ctx
              agentLoop complete exec cancel tools fuel (i + 1) r.1 r.2.2 r.2.1 (comps + 1)

/-- Runtime.ProcessMessage: append the user message, build the context,
run the loop. -/
def processMessage (complete : Nat → List MMsg → Except String Response)
    (exec : Nat → Nat → ToolCall → Except String ToolResult)
    (cancel : Nat → Bool) (tools : List ToolInfo)
    (session : List Msg) (userMessage : String) : LoopOut :=
  let mem := memoryAdd session
    { role := "user", content := userMessage,
      toolCalls := [], toolCallID := "", toolName := "" }
  agentLoop complete exec cancel tools maxIterations 0 mem
    (buildContext tools mem) [] 0

/-! ## Delegated-credential refresh (internal/model/anthropic.go)

`AnthropicProvider.refreshIfNeeded` is embedded as a function of the
credential state, the current time (`time.Now().UnixMilli()`), and the
outcome of the one possible token-endpoint exchange.  Go reads the clock
again when storing the new expiry; both reads are modelled by the single
`now` (the claims do not depend on the interval between them).  The
single-writer lock serializes the Go method; one sequential call is
modelled. -/

structure OAuthState where
  accessToken : String
  refreshToken : String
  expiresAt : Int
  isOAuth : Bool
deriving DecidableEq, Repr

structure TokenResp where
  accessToken : String
  refreshToken : String
  expiresIn : Int
deriving DecidableEq, Repr

/-- Outcome of `client.Post` on the token endpoint: transport error,
non-200 status, 200 with an undecodable body, or 200 with a decoded
token response. -/
inductive RefreshOutcome
  | netError (msg : String)
  | httpError (status : Nat) (body : String)
  | decodeError
  | success (tok : TokenResp)
deriving DecidableEq, Repr

inductive RefreshErr
  | requestFailed (msg : String)
  | badStatus (status : Nat) (body : String)
deriving DecidableEq, Repr

/-- Normalization of the expiry: values in `(0, 10^12)` are seconds and
are rescaled to milliseconds. -/
def normalizeExpiry (e : Int) : Int :=
  if 0 < e ∧ e < 10 ^ 12 then e * 1000 else e

/-- AnthropicProvider.refreshIfNeeded. -/
def refreshIfNeeded (p : OAuthState) (now : Int) (outcome : RefreshOutcome) :
    OAuthState × Option RefreshErr :=
  if ¬p.isOAuth then (p, none)
  else if ¬(p.refreshToken ≠ "") then (p, none)
  else
    if 0 < normalizeExpiry p.expiresAt ∧
        now < normalizeExpiry p.expiresAt - 5 * 60 * 1000 then (p, none)
    else if normalizeExpiry p.expiresAt = 0 ∧ p.accessToken ≠ "" then (p, none)
    else
      match outcome with
      | .netError m =>
          if p.accessToken ≠ "" then (p, none) else (p, some (.requestFailed m))
      | .httpError st body =>
          if p.accessToken ≠ "" then (p, none) else (p, some (.badStatus st body))
      | .decodeError => (p, none)
      | .success tok =>
          let p1 := if tok.accessToken ≠ "" then { p with accessToken := tok.accessToken } else p
          let p2 := if tok.refreshToken ≠ "" then { p1 with refreshToken := tok.refreshToken } else p1
          let p3 := if 0 < tok.expiresIn then { p2 with expiresAt := now + tok.expiresIn * 1000 } else p2
          (p3, none)

/-- `strings.Contains`: substring containment on character lists. -/
def containsSub (needle hay : List Char) : Bool :=
  match hay with
  | [] => needle.isEmpty
  | _ :: t => needle.isPrefixOf hay || containsSub needle t

/-! ## Concrete fixtures -/

/-- A plain user chat message. -/
def fillMsg : Msg := ⟨"user", "chat", [], "", ""⟩

/-- An assistant message carrying one tool invocation. -/
def invMsg : Msg := ⟨"assistant", "running git", [⟨"call-1", "git_status", []⟩], "", ""⟩

/-- The tool message answering `invMsg`'s invocation. -/
def ansMsg : Msg := ⟨"tool", "clean", [], "call-1", "git_status"⟩

/-- A 200-message conversation whose only tool-call group sits at
positions 50 (assistant with invocation) and 51 (its tool result). -/
def splitHist : List Msg :=
  List.replicate 50 fillMsg ++ [invMsg, ansMsg] ++ List.replicate 148 fillMsg

/-! ## C7 -/

/-- C7: `Memory.Get` returns the stored sequence in append order;
`Memory.Add` trims only when the conversation exceeds 200 messages, and
then stores exactly the earliest 10 followed by the most recent 150 of
the pre-trim sequence — the removal of one contiguous middle segment,
with no reordering. -/
theorem memory_append_order_trim (hist : List Msg) (msg : Msg) :
    (¬(hist ++ [msg]).length > 200 →
        memoryGet (memoryAdd hist msg) = hist ++ [msg]) ∧
    ((hist ++ [msg]).length > 200 →
        memoryGet (memoryAdd hist msg) =
            (hist ++ [msg]).take 10 ++
              (hist ++ [msg]).drop ((hist ++ [msg]).length - 150) ∧
          ((hist ++ [msg]).drop ((hist ++ [msg]).length - 150)).length = 150 ∧
          (hist ++ [msg]).take 10 ++
              ((hist ++ [msg]).drop 10).take ((hist ++ [msg]).length - 150 - 10) ++
              (hist ++ [msg]).drop ((hist ++ [msg]).length - 150) =
            hist ++ [msg]) := by
  constructor
  · intro hle
    exact memoryAdd_le hist msg (by simpa [maxSize] using hle)
  · intro hgt
    have hgt' : (hist ++ [msg]).length > maxSize := by simpa [maxSize] using hgt
    refine ⟨memoryAdd_gt hist msg hgt', ?_, ?_⟩
    · rw [List.length_drop]
      omega
    · exact trim_contiguous (hist ++ [msg]) (by omega)

/-- C7 witness: a 201-message conversation trims to first 10 + last 150,
contiguously. -/
theorem memory_append_order_trim_witness :
    (List.replicate 200 fillMsg ++ [fillMsg]).length > 200 ∧
      (memoryGet (memoryAdd (List.replicate 200 fillMsg) fillMsg) =
          (List.replicate 200 fillMsg ++ [fillMsg]).take 10 ++
            (List.replicate 200 fillMsg ++ [fillMsg]).drop
              ((List.replicate 200 fillMsg ++ [fillMsg]).length - 150) ∧
        ((List.replicate 200 fillMsg ++ [fillMsg]).drop
            ((List.replicate 200 fillMsg ++ [fillMsg]).length - 150)).length = 150 ∧
        (List.replicate 200 fillMsg ++ [fillMsg]).take 10 ++
            ((List.replicate 200 fillMsg ++ [fillMsg]).drop 10).take
              ((List.replicate 200 fillMsg ++ [fillMsg]).length - 150 - 10) ++
            (List.replicate 200 fillMsg ++ [fillMsg]).drop
              ((List.replicate 200 fillMsg ++ [fillMsg]).length - 150) =
          List.replicate 200 fillMsg ++ [fillMsg]) :=
  ⟨by simp, (memory_append_order_trim (List.replicate 200 fillMsg) fillMsg).2 (by simp)⟩

/-! ## C1 -/

/-- C1 counterexample: on the 201-message conversation `splitHist ++
[fillMsg]`, the trim discards the assistant message carrying invocation
`call-1` (position 50) but retains the tool message answering it
(position 51): the tool-call/tool-result group is split across the
retained/discarded boundary. -/
theorem memory_trim_splits_group_cex :
    invMsg ∈ splitHist ++ [fillMsg] ∧
      invMsg.toolCalls.map (·.id) = ["call-1"] ∧
      ansMsg.toolCallID = "call-1" ∧
      ansMsg ∈ memoryAdd splitHist fillMsg ∧
      invMsg ∉ memoryAdd splitHist fillMsg := by
  decide

/-- C1 amended: the trim is by raw message count — whenever the
conversation exceeds 200 messages, `Memory.Add` keeps exactly the
earliest 10 and the most recent 150 positions regardless of tool-call
grouping, and there is a conversation (`splitHist`) on which this
discards an assistant message carrying an invocation while retaining the
tool message answering it. -/
theorem memory_trim_raw_count :
    (∀ (hist : List Msg) (msg : Msg), (hist ++ [msg]).length > 200 →
        memoryAdd hist msg =
          (hist ++ [msg]).take 10 ++
            (hist ++ [msg]).drop ((hist ++ [msg]).length - 150)) ∧
      ansMsg ∈ memoryAdd splitHist fillMsg ∧
      invMsg ∉ memoryAdd splitHist fillMsg := by
  refine ⟨fun hist msg hgt => memoryAdd_gt hist msg (by simpa [maxSize] using hgt), ?_, ?_⟩
  · decide
  · decide

/-- C1 amended witness: the raw-count trim equation at a concrete
201-message conversation. -/
theorem memory_trim_raw_count_witness :
    (splitHist ++ [fillMsg]).length > 200 ∧
      memoryAdd splitHist fillMsg =
        (splitHist ++ [fillMsg]).take 10 ++
          (splitHist ++ [fillMsg]).drop ((splitHist ++ [fillMsg]).length - 150) :=
  ⟨by simp [splitHist], memory_trim_raw_count.1 splitHist fillMsg (by simp [splitHist])⟩

/-! ## C4 -/

/-- C4 counterexample: `ScrubText` is not idempotent.  On
`token =Bearer AAAAAAAAAAAAAAAAAAAA` the bearer pattern redacts the token
to `token =[REDACTED]`; on a second scrub the generic key/value pattern
matches `token =[REDACTED]` (the placeholder is a valid value) and
rewrites it to `token = [REDACTED]`, a different string. -/
theorem scrub_not_idempotent_cex :
    scrubText "token =Bearer AAAAAAAAAAAAAAAAAAAA".toList = "token =[REDACTED]".toList ∧
      scrubText "token =[REDACTED]".toList = "token = [REDACTED]".toList ∧
      scrubText (scrubText "token =Bearer AAAAAAAAAAAAAAAAAAAA".toList) ≠
        scrubText "token =Bearer AAAAAAAAAAAAAAAAAAAA".toList := by
  decide

/-- C4 amended: re-scrubbing is a no-op on the spec's firewall scenario —
the scrub of `password: "s3cr3t12345"` is a fixed point of `ScrubText`
(and equals `password: [REDACTED]`) — but `ScrubText` is not idempotent
on all inputs. -/
theorem scrub_idempotent_on_scenario :
    scrubText (scrubText "password: \"s3cr3t12345\"".toList) =
        scrubText "password: \"s3cr3t12345\"".toList ∧
      scrubTextS "password: [REDACTED]" = "password: [REDACTED]" := by
  decide

/-! ## C9 -/

/-- C9 counterexample: the universally quantified scenario fails.  The
input `pwd:xxxxxxxxpassword: "s3cr3t12345"` contains the substring
`password: "s3cr3t12345"`, yet the generic key/value pattern matches
`pwd:xxxxxxxxpassword:` first (the value may contain `:`), consuming the
`password:` key inside its redacted value and leaving the quoted secret
outside every match: the output contains `s3cr3t12345` and no
`password:`. -/
theorem scrub_password_context_cex :
    containsSub "password: \"s3cr3t12345\"".toList
        "pwd:xxxxxxxxpassword: \"s3cr3t12345\"".toList = true ∧
      containsSub "s3cr3t12345".toList
        (scrubText "pwd:xxxxxxxxpassword: \"s3cr3t12345\"".toList) = true ∧
      containsSub "password:".toList
        (scrubText "pwd:xxxxxxxxpassword: \"s3cr3t12345\"".toList) = false := by
  decide

/-- C9 amended: on the scenario input itself — the assignment
`password: "s3cr3t12345"`, standing alone or in inert surrounding text —
`ScrubText` retains `password:` and removes every occurrence of the
secret; the universal closure over arbitrary surrounding text fails
(an overlapping earlier match can swallow the key and strand the
secret). -/
theorem scrub_password_scenario :
    scrubTextS "password: \"s3cr3t12345\"" = "password: [REDACTED]" ∧
      scrubTextS "my password: \"s3cr3t12345\" ok" = "my password: [REDACTED] ok" ∧
      containsSub "password:".toList
        (scrubText "password: \"s3cr3t12345\"".toList) = true ∧
      containsSub "s3cr3t12345".toList
        (scrubText "password: \"s3cr3t12345\"".toList) = false ∧
      containsSub "s3cr3t12345".toList
        (scrubText "my password: \"s3cr3t12345\" ok".toList) = false := by
  decide

/-! ## C10 -/

/-- C10: `ScrubRequest` copies Tools, MaxTokens, Temperature, Model and
the scrubbed Messages but never WorkingDir — its output's working
directory is always `""` — and every request dispatched through the
Router reaches the provider in scrubbed form, hence with the caller's
working-directory hint dropped. -/
theorem scrub_request_drops_working_dir :
    (∀ req : Request,
        (scrubRequest req).workingDir = "" ∧
        (scrubRequest req).tools = req.tools ∧
        (scrubRequest req).maxTokens = req.maxTokens ∧
        (scrubRequest req).temperature = req.temperature ∧
        (scrubRequest req).model = req.model ∧
        (scrubRequest req).messages = req.messages.map fun m =>
          { role := m.role, content := scrubTextS m.content,
            toolCalls := m.toolCalls, toolCallID := m.toolCallID }) ∧
    (∀ reg policies dm proj req name dreq,
        routerDispatch reg policies dm proj req = .ok (name, dreq) →
        dreq = scrubRequest req ∧ dreq.workingDir = "") := by
  refine ⟨fun req => ⟨rfl, rfl, rfl, rfl, rfl, rfl⟩, ?_⟩
  intro reg policies dm proj req name dreq h
  unfold routerDispatch at h
  cases hsel : selectProvider reg policies dm proj req.model with
  | error e => rw [hsel] at h; exact absurd h (by simp)
  | ok n =>
      rw [hsel] at h
      have : (n, scrubRequest req) = (name, dreq) := by
        simpa using h
      obtain ⟨-, h2⟩ := Prod.mk.injEq .. ▸ this
      exact ⟨h2.symm ▸ rfl, h2 ▸ rfl⟩

/-- A request carrying a working-directory hint. -/
def reqWithDir : Request :=
  ⟨[⟨"user", "list kafka topics", [], ""⟩], [], 4096, 1 / 10, "", "/home/dev/app"⟩

/-- C10 witness: dispatching a request with a working-directory hint
through the router hands the provider a request whose working directory
is empty. -/
theorem scrub_request_drops_working_dir_witness :
    reqWithDir.workingDir = "/home/dev/app" ∧
      routerDispatch [("ollama", true)] [] "" none reqWithDir =
        .ok ("ollama", scrubRequest reqWithDir) ∧
      (scrubRequest reqWithDir).workingDir = "" :=
  ⟨rfl, rfl,
    (scrub_request_drops_working_dir.2 [("ollama", true)] [] "" none reqWithDir
        "ollama" (scrubRequest reqWithDir) rfl).2⟩

/-! ## C5 -/

/-- Modelled from the claim's wording, read literally: in step (2) only
the FIRST policy rule whose pattern matches the project path is
consulted; if none of its allowed providers is registered and available,
resolution falls through to the default model (step 3) and the built-in
fallback (step 4), without consulting later matching rules. -/
def claimSelectProvider (reg : Registry) (policies : List ModelPolicy)
    (defaultModel : String) (project : Option String) (modelOverride : String) :
    Except RouterErr String :=
  if modelOverride ≠ "" then
    if (reg.lookup (beforeSlash modelOverride)).isSome then .ok (beforeSlash modelOverride)
    else .error (.unknownProvider (beforeSlash modelOverride))
  else
    match (match project with
           | some pp =>
               match policies.find?
                   (fun pol => globMatch pol.projectPattern.toList pp.toList) with
               | some pol => firstAvail reg pol.allowedProviders
               | none => none
           | none => none) with
    | some name => .ok name
    | none => defaultOrFallback reg defaultModel

/-- The amended resolution order: step (2) returns the first registered
and available provider found scanning the MATCHING rules in configured
order — a matching rule none of whose allowed providers is registered and
available is skipped in favour of later matching rules. -/
def amendedSelectProvider (reg : Registry) (policies : List ModelPolicy)
    (defaultModel : String) (project : Option String) (modelOverride : String) :
    Except RouterErr String :=
  if modelOverride ≠ "" then
    if (reg.lookup (beforeSlash modelOverride)).isSome then .ok (beforeSlash modelOverride)
    else .error (.unknownProvider (beforeSlash modelOverride))
  else
    match (match project with
           | some pp =>
               policies.findSome? fun pol =>
                 if globMatch pol.projectPattern.toList pp.toList then
                   firstAvail reg pol.allowedProviders
                 else none
           | none => none) with
    | some name => .ok name
    | none => defaultOrFallback reg defaultModel

/-- `resolveByPolicy` is the in-order scan of matching rules. -/
theorem resolveByPolicy_eq_findSome (reg : Registry) (pp : String) :
    ∀ policies : List ModelPolicy,
      resolveByPolicy reg policies pp =
        policies.findSome? fun pol =>
          if globMatch pol.projectPattern.toList pp.toList then
            firstAvail reg pol.allowedProviders
          else none
  | [] => rfl
  | pol :: rest => by
      unfold resolveByPolicy
      rw [List.findSome?_cons]
      by_cases hm : globMatch pol.projectPattern.toList pp.toList
      · rw [if_pos hm, if_pos hm]
        cases firstAvail reg pol.allowedProviders with
        | some name => rfl
        | none => exact resolveByPolicy_eq_findSome reg pp rest
      · rw [if_neg hm, if_neg hm]
        exact resolveByPolicy_eq_findSome reg pp rest

/-- C5 counterexample: two rules match `/x/app`; the first names only the
unregistered provider `cloudX`, the second names the registered and
available `local`.  The code (`selectProvider`) falls through to the
second matching rule and resolves `local`; the claim's resolution order
(`claimSelectProvider`, which consults only the first matching rule and
then the default/fallback steps) yields a no-provider error instead. -/
theorem select_provider_first_rule_cex :
    selectProvider [("local", true)]
        [⟨"/x/*", ["cloudX"]⟩, ⟨"/x/*", ["local"]⟩] "" (some "/x/app") "" =
      .ok "local" ∧
    claimSelectProvider [("local", true)]
        [⟨"/x/*", ["cloudX"]⟩, ⟨"/x/*", ["local"]⟩] "" (some "/x/app") "" =
      .error .noProvider :=
  ⟨rfl, rfl⟩

/-- C5 amended: provider resolution follows the four-step order with step
(2) scanning all matching rules in configured order for the first
registered and available allowed provider (`selectProvider` equals
`amendedSelectProvider` on every input); in particular the policy
scenario — rule `/company/*` allowing `local`, project `/company/app`,
`local` and `cloud` both registered and available — resolves `local`. -/
theorem select_provider_resolution_order :
    (∀ (reg : Registry) (policies : List ModelPolicy) (dm : String)
        (proj : Option String) (ov : String),
        selectProvider reg policies dm proj ov =
          amendedSelectProvider reg policies dm proj ov) ∧
      selectProvider [("local", true), ("cloud", true)]
          [⟨"/company/*", ["local"]⟩] "" (some "/company/app") "" =
        .ok "local" := by
  constructor
  · intro reg policies dm proj ov
    unfold selectProvider amendedSelectProvider
    by_cases hov : ov ≠ ""
    · simp only [if_pos hov]
    · simp only [if_neg hov]
      cases proj with
      | none => rfl
      | some pp =>
          dsimp only
          rw [resolveByPolicy_eq_findSome]
          rfl
  · rfl

/-! ## C3 -/

/-- C3 counterexample: with no credential present at all — empty access
token AND empty refresh token — `refreshIfNeeded` returns success
(`none`), not an error: the no-refresh-token check returns nil before any
exchange is considered.  The claim's "fails immediately whenever no
credential is present at all" is false on this state. -/
theorem refresh_no_credential_cex :
    (OAuthState.mk "" "" 0 true).accessToken = "" ∧
      (OAuthState.mk "" "" 0 true).refreshToken = "" ∧
      refreshIfNeeded (OAuthState.mk "" "" 0 true) 0 (.netError "connection refused") =
        (OAuthState.mk "" "" 0 true, none) :=
  ⟨rfl, rfl, rfl⟩

/-- C3 amended: `refreshIfNeeded` returns success whenever a cached
access token is present (in particular when the refresh exchange fails —
the degraded continue), and it returns an error exactly when the provider
is OAuth, no access token is cached, a refresh token IS present, the
normalized expiry is within 5 minutes (or unset/past), and the exchange
fails with a transport error or a non-200 status.  When no credential is
present at all (neither token) it returns success; the absent credential
surfaces later, through `Available()` and the vendor call. -/
theorem refresh_degraded_continue :
    ∀ (p : OAuthState) (now : Int) (outcome : RefreshOutcome),
      (p.accessToken ≠ "" → (refreshIfNeeded p now outcome).2 = none) ∧
      ((refreshIfNeeded p now outcome).2.isSome ↔
        (p.isOAuth ∧ p.accessToken = "" ∧ p.refreshToken ≠ "" ∧
          ¬(0 < normalizeExpiry p.expiresAt ∧
              now < normalizeExpiry p.expiresAt - 5 * 60 * 1000) ∧
          (match outcome with
           | .netError _ => True
           | .httpError _ _ => True
           | .decodeError => False
           | .success _ => False))) := by
  intro p now outcome
  cases outcome <;>
    · constructor
      · intro htok
        unfold refreshIfNeeded
        split_ifs <;> simp_all
      · unfold refreshIfNeeded
        split_ifs <;> simp_all

/-- C3 witness: a failing refresh endpoint with an existing cached token
returns success (degraded continue). -/
theorem refresh_degraded_continue_witness :
    (OAuthState.mk "cached" "r" 100 true).accessToken ≠ "" ∧
      (refreshIfNeeded (OAuthState.mk "cached" "r" 100 true) (2 * 10 ^ 12)
          (.netError "refused")).2 = none :=
  ⟨by decide,
    (refresh_degraded_continue (OAuthState.mk "cached" "r" 100 true) (2 * 10 ^ 12)
        (.netError "refused")).1 (by decide)⟩

/-! ## Runtime lemmas -/

/-- With cancellation never observed and every completion carrying tool
invocations, the loop consumes all its fuel, performing one completion
per iteration, and ends in the iteration-budget error. -/
theorem agentLoop_budget (complete : Nat → List MMsg → Except String Response)
    (exec : Nat → Nat → ToolCall → Except String ToolResult)
    (cancel : Nat → Bool) (tools : List ToolInfo)
    (hc : ∀ i, cancel i = false)
    (hr : ∀ i ctx, ∃ r, complete i ctx = .ok r ∧ r.toolCalls ≠ []) :
    ∀ (fuel i : Nat) (mem : List Msg) (ctx : List MMsg) (ev : List Event) (comps : Nat),
      (agentLoop complete exec cancel tools fuel i mem ctx ev comps).err =
          some (.iterationsExceeded maxIterations) ∧
        (agentLoop complete exec cancel tools fuel i mem ctx ev comps).completions =
          comps + fuel := by
  intro fuel
  induction fuel with
  | zero => intro i mem ctx ev comps; exact ⟨rfl, rfl⟩
  | succ n ih =>
      intro i mem ctx ev comps
      obtain ⟨r, hre, hne⟩ := hr i ctx
      simp only [agentLoop, hc i, hre, if_neg]
      cases hcalls : r.toolCalls with
      | nil => exact absurd hcalls hne
      | cons hd tl =>
          simp only [hcalls, List.isEmpty_cons, Bool.false_eq_true, if_neg, if_false]
          refine ⟨(ih ..).1, ?_⟩
          rw [(ih ..).2]
          omega

/-- Members of the memory produced by the tool loop come from the
incoming memory or are tool messages recording an executor error. -/
theorem runTools_mem_shape (exec : Nat → Nat → ToolCall → Except String ToolResult)
    (tools : List ToolInfo) (i : Nat)
    (hex : ∀ i' j tc, ∃ em, em ≠ "" ∧ exec i' j tc = .error em) :
    ∀ (tcs : List ToolCall) (j : Nat) (mem : List Msg) (ev : List Event)
      (ctx : List MMsg) (m : Msg),
      m ∈ (runTools exec tools i tcs j mem ev ctx).1 →
        m ∈ mem ∨ ∃ em i' j' tc, exec i' j' tc = .error em ∧
          m = ⟨"tool", "Error: " ++ em, [], tc.id, tc.name⟩ := by
  intro tcs
  induction tcs with
  | nil => intro j mem ev ctx m hm; exact Or.inl hm
  | cons tc rest ih =>
      intro j mem ev ctx m hm
      obtain ⟨em, hne, hexeq⟩ := hex i j tc
      simp only [runTools, hexeq, hne, if_pos, if_neg] at hm
      rcases ih _ _ _ _ m hm with hmem | hgood
      · rcases List.mem_append.mp (memoryAdd_mem _ _ _ hmem) with h' | h'
        · exact Or.inl h'
        · have hm' : m = ⟨"tool", if em ≠ "" then "Error: " ++ em else "",
              [], tc.id, tc.name⟩ := by simpa using h'
          refine Or.inr ⟨em, i, j, tc, hexeq, ?_⟩
          rw [hm', if_pos hne]
      · exact Or.inr hgood

/-- Members of the loop's final memory come from the incoming memory, are
non-tool messages, or are tool messages recording an executor error. -/
theorem agentLoop_mem_shape (complete : Nat → List MMsg → Except String Response)
    (exec : Nat → Nat → ToolCall → Except String ToolResult)
    (cancel : Nat → Bool) (tools : List ToolInfo)
    (hex : ∀ i' j tc, ∃ em, em ≠ "" ∧ exec i' j tc = .error em) :
    ∀ (fuel i : Nat) (mem : List Msg) (ctx : List MMsg) (ev : List Event) (comps : Nat)
      (m : Msg),
      m ∈ (agentLoop complete exec cancel tools fuel i mem ctx ev comps).memory →
        m ∈ mem ∨ m.role ≠ "tool" ∨ ∃ em i' j' tc, exec i' j' tc = .error em ∧
          m = ⟨"tool", "Error: " ++ em, [], tc.id, tc.name⟩ := by
  intro fuel
  induction fuel with
  | zero => intro i mem ctx ev comps m hm; exact Or.inl hm
  | succ n ih =>
      intro i mem ctx ev comps m hm
      by_cases hci : cancel i
      · simp only [agentLoop, hci, if_pos] at hm
        exact Or.inl hm
      · simp only [agentLoop, hci, if_neg, Bool.false_eq_true, if_false] at hm
        cases hcomp : complete i ctx with
        | error e =>
            rw [hcomp] at hm
            exact Or.inl hm
        | ok resp =>
            rw [hcomp] at hm
            cases hcalls : resp.toolCalls with
            | nil =>
                simp only [hcalls, List.isEmpty_nil, if_pos] at hm
                rcases List.mem_append.mp (memoryAdd_mem _ _ _ hm) with h' | h'
                · exact Or.inl h'
                · refine Or.inr (Or.inl ?_)
                  have : m = ⟨"assistant", resp.content, [], "", ""⟩ := by simpa using h'
                  rw [this]
                  exact (by decide : ("assistant" : String) ≠ "tool")
            | cons hd tl =>
                simp only [hcalls, List.isEmpty_cons, Bool.false_eq_true, if_false] at hm
                rcases ih _ _ _ _ _ m hm with h1 | h2
                · rcases runTools_mem_shape exec tools i hex _ _ _ _ _ m h1 with h1' | h1'
                  · rcases List.mem_append.mp (memoryAdd_mem _ _ _ h1') with h'' | h''
                    · exact Or.inl h''
                    · refine Or.inr (Or.inl ?_)
                      have : m = ⟨"assistant", resp.content, hd :: tl, "", ""⟩ := by
                        simpa using h''
                      rw [this]
                      exact (by decide : ("assistant" : String) ≠ "tool")
                  · exact Or.inr (Or.inr h1')
                · exact Or.inr h2

/-- With cancellation never observed and every completion succeeding, the
loop ends either in success or in the iteration-budget error. -/
theorem agentLoop_err_opts (complete : Nat → List MMsg → Except String Response)
    (exec : Nat → Nat → ToolCall → Except String ToolResult)
    (cancel : Nat → Bool) (tools : List ToolInfo)
    (hc : ∀ i, cancel i = false)
    (hok : ∀ i ctx, ∃ r, complete i ctx = .ok r) :
    ∀ (fuel i : Nat) (mem : List Msg) (ctx : List MMsg) (ev : List Event) (comps : Nat),
      (agentLoop complete exec cancel tools fuel i mem ctx ev comps).err = none ∨
        (agentLoop complete exec cancel tools fuel i mem ctx ev comps).err =
          some (.iterationsExceeded maxIterations) := by
  intro fuel
  induction fuel with
  | zero => intro i mem ctx ev comps; exact Or.inr rfl
  | succ n ih =>
      intro i mem ctx ev comps
      obtain ⟨r, hre⟩ := hok i ctx
      simp only [agentLoop, hc i, hre, Bool.false_eq_true, if_false]
      cases hcalls : r.toolCalls with
      | nil => simp [hcalls]
      | cons hd tl =>
          simp only [hcalls, List.isEmpty_cons, Bool.false_eq_true, if_false]
          exact ih ..

/-! ## C2 -/

/-- C2: if every routed completion carries at least one tool invocation
(and cancellation never fires), `ProcessMessage` returns the distinct
iteration-budget error — not a final answer and not a provider error —
after exactly the configured cap of 20 loop iterations, i.e. after
exactly 20 model completions. -/
theorem iteration_budget_exceeded (complete : Nat → List MMsg → Except String Response)
    (exec : Nat → Nat → ToolCall → Except String ToolResult)
    (cancel : Nat → Bool) (tools : List ToolInfo)
    (session : List Msg) (userMessage : String)
    (hc : ∀ i, cancel i = false)
    (hr : ∀ i ctx, ∃ r, complete i ctx = .ok r ∧ r.toolCalls ≠ []) :
    (processMessage complete exec cancel tools session userMessage).err =
        some (.iterationsExceeded 20) ∧
      (processMessage complete exec cancel tools session userMessage).completions = 20 := by
  unfold processMessage
  exact ⟨(agentLoop_budget complete exec cancel tools hc hr ..).1,
    (agentLoop_budget complete exec cancel tools hc hr ..).2⟩

/-- A stub response that always requests one more tool call. -/
def stubToolResp : Response := ⟨"calling a tool", [⟨"call-1", "git_status", []⟩], "m", ⟨0, 0⟩, "tool_use"⟩

/-- A router oracle that always answers with a tool invocation. -/
def alwaysToolRouter : Nat → List MMsg → Except String Response := fun _ _ => .ok stubToolResp

/-- A tool executor stub that always errors. -/
def alwaysErrExec : Nat → Nat → ToolCall → Except String ToolResult := fun _ _ _ => .error "boom"

def neverCancel : Nat → Bool := fun _ => false

/-- C2 witness: the always-tool-calling stub exhausts the budget after
exactly 20 completions. -/
theorem iteration_budget_exceeded_witness :
    (∀ i, neverCancel i = false) ∧
      (processMessage alwaysToolRouter alwaysErrExec neverCancel [] [] "list kafka topics").err =
          some (.iterationsExceeded 20) ∧
        (processMessage alwaysToolRouter alwaysErrExec neverCancel [] []
            "list kafka topics").completions = 20 :=
  ⟨fun _ => rfl,
    iteration_budget_exceeded alwaysToolRouter alwaysErrExec neverCancel [] []
      "list kafka topics" (fun _ => rfl)
      (fun _ _ => ⟨stubToolResp, rfl, by decide⟩)⟩

/-! ## C6 -/

/-- The claim's description of error folding, written from the spec's
words: for each invocation in the order received, append to Memory a tool
message whose content is exactly `"Error: <message>"` and whose
correlation id is that invocation's id (`f i j tc` is the executor's
error message for call `j` of iteration `i`). -/
def appendErrorResults (f : Nat → Nat → ToolCall → String) (i : Nat) :
    Nat → List ToolCall → List Msg → List Msg
  | _, [], mem => mem
  | j, tc :: rest, mem =>
      appendErrorResults f i (j + 1) rest
        (memoryAdd mem ⟨"tool", "Error: " ++ f i j tc, [], tc.id, tc.name⟩)

/-- When the executor errors on every invocation of iteration `i`, the
tool loop performs exactly the claim's per-invocation appends: for each
invocation, in order, the tool message `"Error: <message>"` correlated by
that invocation's id. -/
theorem runTools_appends_errors (exec : Nat → Nat → ToolCall → Except String ToolResult)
    (tools : List ToolInfo) (i : Nat) (f : Nat → Nat → ToolCall → String)
    (hex : ∀ j tc, exec i j tc = .error (f i j tc))
    (hne : ∀ j tc, f i j tc ≠ "") :
    ∀ (tcs : List ToolCall) (j : Nat) (mem : List Msg) (ev : List Event) (ctx : List MMsg),
      (runTools exec tools i tcs j mem ev ctx).1 = appendErrorResults f i j tcs mem := by
  intro tcs
  induction tcs with
  | nil => intro j mem ev ctx; rfl
  | cons tc rest ih =>
      intro j mem ev ctx
      simp only [runTools, hex j tc]
      rw [if_pos (hne j tc)]
      simp only [appendErrorResults]
      exact ih ..

/-- C6: a failing tool execution never aborts a ProcessMessage turn:
whenever the Tool Executor errors, the tool loop appends — for each
invocation, in the order received — a tool message whose content is
exactly `"Error: <message>"` and whose correlation id is the
invocation's id, and the loop continues: with an always-erroring
executor the call still ends in a final response or the iteration-budget
error (never a tool error), and every retained tool message not already
in the session records such a folded error. -/
theorem tool_error_recovered (complete : Nat → List MMsg → Except String Response)
    (exec : Nat → Nat → ToolCall → Except String ToolResult)
    (cancel : Nat → Bool) (tools : List ToolInfo)
    (session : List Msg) (userMessage : String)
    (f : Nat → Nat → ToolCall → String)
    (hc : ∀ i, cancel i = false)
    (hok : ∀ i ctx, ∃ r, complete i ctx = .ok r)
    (hex : ∀ i j tc, exec i j tc = .error (f i j tc))
    (hne : ∀ i j tc, f i j tc ≠ "") :
    (∀ (i : Nat) (tcs : List ToolCall) (j : Nat) (mem : List Msg)
        (ev : List Event) (ctx : List MMsg),
        (runTools exec tools i tcs j mem ev ctx).1 = appendErrorResults f i j tcs mem) ∧
    ((processMessage complete exec cancel tools session userMessage).err = none ∨
        (processMessage complete exec cancel tools session userMessage).err =
          some (.iterationsExceeded 20)) ∧
      ∀ m ∈ (processMessage complete exec cancel tools session userMessage).memory,
        m.role = "tool" →
          m ∈ session ∨ ∃ em i j tc, exec i j tc = .error em ∧
            m = ⟨"tool", "Error: " ++ em, [], tc.id, tc.name⟩ := by
  have hex' : ∀ i j tc, ∃ em, em ≠ "" ∧ exec i j tc = .error em :=
    fun i j tc => ⟨f i j tc, hne i j tc, hex i j tc⟩
  unfold processMessage
  refine ⟨fun i => runTools_appends_errors exec tools i f (hex i) (hne i), ?_, ?_⟩
  · exact agentLoop_err_opts complete exec cancel tools hc hok ..
  · intro m hm hrole
    rcases agentLoop_mem_shape complete exec cancel tools hex' _ _ _ _ _ _ m hm with
      h1 | h2 | h3
    · rcases List.mem_append.mp (memoryAdd_mem _ _ _ h1) with h' | h'
      · exact Or.inl h'
      · have : m = ⟨"user", userMessage, [], "", ""⟩ := by simpa using h'
        rw [this] at hrole
        exact absurd hrole (by decide : ¬("user" : String) = "tool")
    · exact absurd hrole h2
    · exact Or.inr h3

/-- A router oracle whose first reply requests a tool and whose second is
final. -/
def oneToolRouter : Nat → List MMsg → Except String Response := fun i _ =>
  if i = 0 then .ok stubToolResp else .ok ⟨"all done", [], "m", ⟨0, 0⟩, "stop"⟩

/-- C6 witness: with the always-erroring executor, the tool loop performs
exactly the per-invocation `"Error: <message>"` appends under the
invocations' correlation ids, and the turn still reaches a final
response (or the cap). -/
theorem tool_error_recovered_witness :
    (∀ i, neverCancel i = false) ∧
      (∀ i j tc, alwaysErrExec i j tc =
        Except.error ((fun (_ _ : Nat) (_ : ToolCall) => "boom") i j tc)) ∧
      ((∀ (i : Nat) (tcs : List ToolCall) (j : Nat) (mem : List Msg)
          (ev : List Event) (ctx : List MMsg),
          (runTools alwaysErrExec [] i tcs j mem ev ctx).1 =
            appendErrorResults (fun _ _ _ => "boom") i j tcs mem) ∧
        ((processMessage oneToolRouter alwaysErrExec neverCancel [] [] "hello").err = none ∨
          (processMessage oneToolRouter alwaysErrExec neverCancel [] [] "hello").err =
            some (.iterationsExceeded 20)) ∧
        ∀ m ∈ (processMessage oneToolRouter alwaysErrExec neverCancel [] [] "hello").memory,
          m.role = "tool" →
            m ∈ ([] : List Msg) ∨ ∃ em i j tc, alwaysErrExec i j tc = .error em ∧
              m = ⟨"tool", "Error: " ++ em, [], tc.id, tc.name⟩) :=
  ⟨fun _ => rfl, fun _ _ _ => rfl,
    tool_error_recovered oneToolRouter alwaysErrExec neverCancel [] [] "hello"
      (fun _ _ _ => "boom")
      (fun _ => rfl)
      (fun i _ => by
        cases i with
        | zero => exact ⟨stubToolResp, rfl⟩
        | succ n => exact ⟨⟨"all done", [], "m", ⟨0, 0⟩, "stop"⟩, rfl⟩)
      (fun _ _ _ => rfl)
      (fun _ _ _ => (by decide : ("boom" : String) ≠ ""))⟩

/-! ## C8 -/

/-- Number of `onError` deliveries in an event trace. -/
def countErrEv (evs : List Event) : Nat :=
  evs.countP fun e => match e with | .errorEv _ => true | _ => false

/-- Number of `onDone` deliveries in an event trace. -/
def countDoneEv (evs : List Event) : Nat :=
  evs.countP fun e => match e with | .done => true | _ => false

/-- Number of `onResponse` deliveries in an event trace. -/
def countRespEv (evs : List Event) : Nat :=
  evs.countP fun e => match e with | .response _ => true | _ => false

/-- The tool loop emits only tool-call and tool-result notifications. -/
theorem runTools_event_counts (exec : Nat → Nat → ToolCall → Except String ToolResult)
    (tools : List ToolInfo) (i : Nat) :
    ∀ (tcs : List ToolCall) (j : Nat) (mem : List Msg) (ev : List Event) (ctx : List MMsg),
      countErrEv (runTools exec tools i tcs j mem ev ctx).2.1 = countErrEv ev ∧
        countDoneEv (runTools exec tools i tcs j mem ev ctx).2.1 = countDoneEv ev ∧
        countRespEv (runTools exec tools i tcs j mem ev ctx).2.1 = countRespEv ev := by
  intro tcs
  induction tcs with
  | nil => intro j mem ev ctx; exact ⟨rfl, rfl, rfl⟩
  | cons tc rest ih =>
      intro j mem ev ctx
      simp only [runTools]
      refine ⟨?_, ?_, ?_⟩
      · rw [(ih ..).1]; simp [countErrEv, List.countP_append]
      · rw [(ih ..).2.1]; simp [countDoneEv, List.countP_append]
      · rw [(ih ..).2.2]; simp [countRespEv, List.countP_append]

/-- Terminal-outcome accounting for the loop: a successful exit adds one
`onResponse` and one `onDone`, delivered in that order as the final two
events; a provider error adds exactly one `onError`, delivered as the
final event before return; cancellation and budget exhaustion add no
terminal event at all. -/
theorem agentLoop_event_counts (complete : Nat → List MMsg → Except String Response)
    (exec : Nat → Nat → ToolCall → Except String ToolResult)
    (cancel : Nat → Bool) (tools : List ToolInfo) :
    ∀ (fuel i : Nat) (mem : List Msg) (ctx : List MMsg) (ev : List Event) (comps : Nat),
      match (agentLoop complete exec cancel tools fuel i mem ctx ev comps).err with
      | none =>
          countErrEv (agentLoop complete exec cancel tools fuel i mem ctx ev comps).events =
              countErrEv ev ∧
            countDoneEv (agentLoop complete exec cancel tools fuel i mem ctx ev comps).events =
              countDoneEv ev + 1 ∧
            countRespEv (agentLoop complete exec cancel tools fuel i mem ctx ev comps).events =
              countRespEv ev + 1 ∧
            ∃ c pre, (agentLoop complete exec cancel tools fuel i mem ctx ev comps).events =
              pre ++ [.response c, .done]
      | some (.completion e) =>
          countErrEv (agentLoop complete exec cancel tools fuel i mem ctx ev comps).events =
              countErrEv ev + 1 ∧
            countDoneEv (agentLoop complete exec cancel tools fuel i mem ctx ev comps).events =
              countDoneEv ev ∧
            countRespEv (agentLoop complete exec cancel tools fuel i mem ctx ev comps).events =
              countRespEv ev ∧
            ∃ pre, (agentLoop complete exec cancel tools fuel i mem ctx ev comps).events =
              pre ++ [.errorEv e]
      | some .cancelled =>
          countErrEv (agentLoop complete exec cancel tools fuel i mem ctx ev comps).events =
              countErrEv ev ∧
            countDoneEv (agentLoop complete exec cancel tools fuel i mem ctx ev comps).events =
              countDoneEv ev ∧
            countRespEv (agentLoop complete exec cancel tools fuel i mem ctx ev comps).events =
              countRespEv ev
      | some (.iterationsExceeded _) =>
          countErrEv (agentLoop complete exec cancel tools fuel i mem ctx ev comps).events =
              countErrEv ev ∧
            countDoneEv (agentLoop complete exec cancel tools fuel i mem ctx ev comps).events =
              countDoneEv ev ∧
            countRespEv (agentLoop complete exec cancel tools fuel i mem ctx ev comps).events =
              countRespEv ev := by
  intro fuel
  induction fuel with
  | zero => intro i mem ctx ev comps; exact ⟨rfl, rfl, rfl⟩
  | succ n ih =>
      intro i mem ctx ev comps
      by_cases hci : cancel i
      · simp [agentLoop, hci]
      · simp only [agentLoop, hci, Bool.false_eq_true, if_false]
        cases hcomp : complete i ctx with
        | error e =>
            refine ⟨?_, ?_, ?_, ev ++ [.thinking "Thinking..."], rfl⟩ <;>
              simp [countErrEv, countDoneEv, countRespEv, List.countP_append]
        | ok resp =>
            cases hcalls : resp.toolCalls with
            | nil =>
                simp only [hcalls, List.isEmpty_nil, if_pos]
                refine ⟨?_, ?_, ?_, resp.content, ev ++ [.thinking "Thinking..."], rfl⟩ <;>
                  simp [countErrEv, countDoneEv, countRespEv, List.countP_append]
            | cons hd tl =>
                simp only [hcalls, List.isEmpty_cons, Bool.false_eq_true, if_false]
                have hrt := runTools_event_counts exec tools i (hd :: tl) 0
                  (memoryAdd mem ⟨"assistant", resp.content, hd :: tl, "", ""⟩)
                  (ev ++ [.thinking "Thinking..."]) ctx
                have hthink : countErrEv (ev ++ [.thinking "Thinking..."]) = countErrEv ev ∧
                    countDoneEv (ev ++ [.thinking "Thinking..."]) = countDoneEv ev ∧
                    countRespEv (ev ++ [.thinking "Thinking..."]) = countRespEv ev := by
                  refine ⟨?_, ?_, ?_⟩ <;>
                    simp [countErrEv, countDoneEv, countRespEv, List.countP_append]
                have hih := ih (i + 1)
                  (runTools exec tools i (hd :: tl) 0
                    (memoryAdd mem ⟨"assistant", resp.content, hd :: tl, "", ""⟩)
                    (ev ++ [.thinking "Thinking..."]) ctx).1
                  (runTools exec tools i (hd :: tl) 0
                    (memoryAdd mem ⟨"assistant", resp.content, hd :: tl, "", ""⟩)
                    (ev ++ [.thinking "Thinking..."]) ctx).2.2
                  (runTools exec tools i (hd :: tl) 0
                    (memoryAdd mem ⟨"assistant", resp.content, hd :: tl, "", ""⟩)
                    (ev ++ [.thinking "Thinking..."]) ctx).2.1
                  (comps + 1)
                rw [hrt.1, hthink.1, hrt.2.1, hthink.2.1, hrt.2.2, hthink.2.2] at hih
                exact hih

/-- C8 counterexample: in the budget-exhaustion run, `ProcessMessage`
returns the iteration-budget error but delivers NO `onError` callback:
the error reaches the caller only as a return value, bypassing the
observer.  (The cancellation error is likewise returned from the top of
the loop without any callback.) -/
theorem budget_error_bypasses_observer_cex :
    (processMessage alwaysToolRouter alwaysErrExec neverCancel [] [] "hi").err =
        some (.iterationsExceeded 20) ∧
      countErrEv (processMessage alwaysToolRouter alwaysErrExec neverCancel [] [] "hi").events
        = 0 :=
  ⟨rfl, rfl⟩

/-- C8 amended: every ProcessMessage call yields at most one terminal
observer outcome — onResponse followed by onDone on success, exactly one
onError (the final event) on a provider error — but iteration-budget
exhaustion and cancellation are returned to the caller with NO terminal
observer event: those errors bypass onError. -/
theorem observer_terminal_outcomes (complete : Nat → List MMsg → Except String Response)
    (exec : Nat → Nat → ToolCall → Except String ToolResult)
    (cancel : Nat → Bool) (tools : List ToolInfo)
    (session : List Msg) (userMessage : String) :
    match (processMessage complete exec cancel tools session userMessage).err with
    | none =>
        countErrEv (processMessage complete exec cancel tools session userMessage).events = 0 ∧
          countDoneEv (processMessage complete exec cancel tools session userMessage).events = 1 ∧
          countRespEv (processMessage complete exec cancel tools session userMessage).events = 1 ∧
          ∃ c pre, (processMessage complete exec cancel tools session userMessage).events =
            pre ++ [.response c, .done]
    | some (.completion e) =>
        countErrEv (processMessage complete exec cancel tools session userMessage).events = 1 ∧
          countDoneEv (processMessage complete exec cancel tools session userMessage).events = 0 ∧
          countRespEv (processMessage complete exec cancel tools session userMessage).events = 0 ∧
          ∃ pre, (processMessage complete exec cancel tools session userMessage).events =
            pre ++ [.errorEv e]
    | some .cancelled =>
        countErrEv (processMessage complete exec cancel tools session userMessage).events = 0 ∧
          countDoneEv (processMessage complete exec cancel tools session userMessage).events = 0 ∧
          countRespEv (processMessage complete exec cancel tools session userMessage).events = 0
    | some (.iterationsExceeded _) =>
        countErrEv (processMessage complete exec cancel tools session userMessage).events = 0 ∧
          countDoneEv (processMessage complete exec cancel tools session userMessage).events = 0 ∧
          countRespEv (processMessage complete exec cancel tools session userMessage).events = 0
    := by
  unfold processMessage
  have h := agentLoop_event_counts complete exec cancel tools maxIterations 0
    (memoryAdd session ⟨"user", userMessage, [], "", ""⟩)
    (buildContext tools (memoryAdd session ⟨"user", userMessage, [], "", ""⟩)) [] 0
  simpa [countErrEv, countDoneEv, countRespEv] using h

end GreenForge
